import Mathlib

/-
  Verification of the nom-nom recipe scrapers.

  Shallow embedding of the three scraper modules
  (ketochef-recipe-scraper.py, keto-diet-recipe-scraper.py,
  omermiller-recipe-scraper.py).  Pure helpers are translated directly;
  the HTMLParser subclasses are modelled as folds of their callback
  methods over a list of start-tag / end-tag / character-data events
  (the order in which Python's HTMLParser invokes them); the crawl
  loops are modelled with an explicit fuel parameter standing for the
  unbounded while loop, and the fetch capability is an explicit
  `String → Except String String` argument.
-/

namespace NomNom

/-- Whitespace recognizer: the ASCII subset of the characters Python's
str.split, str.strip and the regex class for whitespace accept
(space, tab, newline, carriage return, vertical tab, form feed). -/
def isWs (c : Char) : Bool :=
  c == ' ' || c == '\t' || c == '\n' || c == '\r' || c == Char.ofNat 11 || c == Char.ofNat 12

/-- List-level startsWith used by the string helpers below. -/
def startsWithList : List Char → List Char → Bool
  | _, [] => true
  | [], _ :: _ => false
  | a :: as, b :: bs => a == b && startsWithList as bs

/-- List-level substring containment. -/
def containsList : List Char → List Char → Bool
  | [], sub => sub.isEmpty
  | l@(_ :: rest), sub => startsWithList l sub || containsList rest sub

/-- Python's substring test: `sub in s`. -/
def strContains (s sub : String) : Bool := containsList s.data sub.data

/-- Python's str.startswith. -/
def strStartsWith (s pre : String) : Bool := startsWithList s.data pre.data

/-- ASCII lowercasing, the effect of Python's str.lower() on the
scrapers' keyword and type strings (Hebrew has no case). -/
def lowerStr (s : String) : String := ⟨s.data.map Char.toLower⟩

/-- Python's str.join over a list of strings. -/
def joinWith (sep : String) : List String → String
  | [] => ""
  | [x] => x
  | x :: y :: rest => x ++ sep ++ joinWith sep (y :: rest)

/-- Helper for Python's split on a single-character separator; the
accumulator holds the current piece reversed. -/
def splitOnCharAux (sep : Char) : List Char → List Char → List (List Char)
  | [], acc => [acc.reverse]
  | c :: cs, acc =>
    if c == sep then acc.reverse :: splitOnCharAux sep cs []
    else splitOnCharAux sep cs (c :: acc)

/-- Python's s.split(sep) for a one-character separator. -/
def pySplitChar (s : String) (sep : Char) : List String :=
  (splitOnCharAux sep s.data []).map (fun w => ⟨w⟩)

/-- Python's s.replace(old, new) for one-character arguments. -/
def replaceChar (s : String) (old new : Char) : String :=
  ⟨s.data.map (fun c => if c == old then new else c)⟩

/-- Collapse each run of characters matched by `p` into a single space,
mirroring `re.sub(pattern, " ", s)`; the flag records being inside a run. -/
def collapseAux (p : Char → Bool) : Bool → List Char → List Char
  | _, [] => []
  | inRun, c :: cs =>
    if p c then
      if inRun then collapseAux p true cs else ' ' :: collapseAux p true cs
    else c :: collapseAux p false cs

def collapseRuns (p : Char → Bool) (l : List Char) : List Char := collapseAux p false l

/-- Remove trailing characters matched by `p` (Python's rstrip). -/
def dropTrailing (p : Char → Bool) : List Char → List Char
  | [] => []
  | c :: cs =>
    match dropTrailing p cs with
    | [] => if p c then [] else [c]
    | d :: ds => c :: d :: ds

/-- Python's str.strip(): drop leading and trailing whitespace. -/
def stripList (l : List Char) : List Char := dropTrailing isWs (l.dropWhile isWs)

def pyStripStr (s : String) : String := ⟨stripList s.data⟩

/-- Python's `s.rstrip("/")`. -/
def rstripSlashes (s : String) : String := ⟨dropTrailing (· == '/') s.data⟩

/-- Helper for Python's str.split() with no argument: split on whitespace
runs, discarding empty pieces; the accumulator holds the current word
reversed. -/
def wordsAux : List Char → List Char → List (List Char)
  | [], acc => if acc.isEmpty then [] else [acc.reverse]
  | c :: cs, acc =>
    if isWs c then
      if acc.isEmpty then wordsAux cs [] else acc.reverse :: wordsAux cs []
    else wordsAux cs (c :: acc)

/-- Python's str.split() with no argument. -/
def pyWords (s : String) : List String := (wordsAux s.data []).map (fun w => ⟨w⟩)

/-- The pervasive idiom `" ".join(s.split())`. -/
def wsNorm (s : String) : String := joinWith " " (pyWords s)

/-- Subset of Python's html.unescape: the named character references
amp, lt, gt, quot, nbsp and the numeric reference for the apostrophe,
each with its terminating semicolon; any other ampersand sequence is
left unchanged.  This reproduces html.unescape on the strings the
claims evaluate (in particular a double-escaped ampersand decodes one
level per pass, exactly as in Python). -/
def unescapeList : List Char → List Char
  | [] => []
  | '&' :: 'a' :: 'm' :: 'p' :: ';' :: cs => '&' :: unescapeList cs
  | '&' :: 'l' :: 't' :: ';' :: cs => '<' :: unescapeList cs
  | '&' :: 'g' :: 't' :: ';' :: cs => '>' :: unescapeList cs
  | '&' :: 'q' :: 'u' :: 'o' :: 't' :: ';' :: cs => '"' :: unescapeList cs
  | '&' :: 'n' :: 'b' :: 's' :: 'p' :: ';' :: cs => Char.ofNat 160 :: unescapeList cs
  | '&' :: '#' :: '3' :: '9' :: ';' :: cs => Char.ofNat 39 :: unescapeList cs
  | c :: cs => c :: unescapeList cs

def unescapeStr (s : String) : String := ⟨unescapeList s.data⟩

/-- ketochef cleanup_text: html.unescape the text, collapse whitespace
runs to single spaces, strip the ends. -/
def cleanup_text (s : String) : String :=
  ⟨stripList (collapseRuns isWs (unescapeList s.data))⟩

/-- Characters the heading normalizer collapses: colons and whitespace. -/
def headingSep (c : Char) : Bool := c == ':' || isWs c

/-- ketochef normalize_heading: collapse colon/whitespace runs to single
spaces, strip, lowercase. -/
def normalize_heading (s : String) : String :=
  lowerStr (String.mk (stripList (collapseRuns headingSep s.data)))

def INGREDIENT_KEYWORDS : List String := ["מצרכים", "רכיבים", "מרכיבים", "ingredients"]

def INSTRUCTION_KEYWORDS : List String :=
  ["אופן הכנה", "אופן ההכנה", "הוראות", "הכנה", "שיטת הכנה",
   "instructions", "directions", "method"]

/-- ketochef classify_heading: bilingual keyword substring match over
the normalized heading text. -/
def classify_heading (text : String) : Option String :=
  let normalized := normalize_heading text
  if INGREDIENT_KEYWORDS.any (fun k => strContains normalized k) then some "ingredients"
  else if INSTRUCTION_KEYWORDS.any (fun k => strContains normalized k) then some "instructions"
  else none

/-- ketochef is_heading_text: keyword substring match against the union
of both keyword sets. -/
def is_heading_text (text : String) : Bool :=
  let normalized := normalize_heading text
  (INGREDIENT_KEYWORDS ++ INSTRUCTION_KEYWORDS).any (fun k => strContains normalized k)

/-- Python's `a or b` for an optional string `a`: `b` when `a` is None
or empty. -/
def pyOr (a : Option String) (b : String) : String :=
  match a with
  | some s => if s == "" then b else s
  | none => b

/-- The Recipe dataclass shared (shape-wise) by both extracting scrapers. -/
structure Recipe where
  url : String
  name : String
  ingredients : List String
  instructions : List String
deriving DecidableEq, Repr

/-- The components of urllib.parse.urlparse that the scrapers read. -/
structure ParsedUrl where
  scheme : String
  netloc : String
  path : String
  query : String
deriving DecidableEq, Repr

/-- Characters that may appear in a netloc (it ends at the first slash
or question mark). -/
def netChar (c : Char) : Bool := c != '/' && c != '?'

/-- Subset of urllib.parse.urlparse sufficient for the scrapers: handles
http and https absolute URLs, protocol-relative references, and
scheme-less relative references; fragments and other schemes are not
modelled (the crawled site emits none). -/
def urlparse (url : String) : ParsedUrl :=
  let l := url.data
  let (scheme, netloc, rest) :=
    if startsWithList l ("https://".data) then
      let after := l.drop 8
      ("https", after.takeWhile netChar, after.dropWhile netChar)
    else if startsWithList l ("http://".data) then
      let after := l.drop 7
      ("http", after.takeWhile netChar, after.dropWhile netChar)
    else if startsWithList l ("//".data) then
      let after := l.drop 2
      ("", after.takeWhile netChar, after.dropWhile netChar)
    else ("", [], l)
  let path := rest.takeWhile (fun c => c != '?')
  let query := (rest.dropWhile (fun c => c != '?')).drop 1
  ⟨scheme, ⟨netloc⟩, ⟨path⟩, ⟨query⟩⟩

/-- Subset of urllib.parse.urljoin against an absolute base: an absolute
link is returned unchanged, a protocol-relative link inherits the base
scheme, a root-relative link is joined to the base origin, and other
relative links are resolved against the base path's directory;
dot-segments are not modelled (the scrapers' pages emit none). -/
def urljoin (base link : String) : String :=
  let b := urlparse base
  if startsWithList link.data ("https://".data) || startsWithList link.data ("http://".data) then
    link
  else if startsWithList link.data ("//".data) then
    b.scheme ++ ":" ++ link
  else if startsWithList link.data ("/".data) then
    b.scheme ++ "://" ++ b.netloc ++ link
  else if link == "" then
    base
  else
    let dir := ⟨(dropTrailing (fun c => c != '/') b.path.data)⟩
    b.scheme ++ "://" ++ b.netloc ++ dir ++ link

/-- Hex digit value, used by the unquote model. -/
def hexVal (c : Char) : Option Nat :=
  if '0' ≤ c ∧ c ≤ '9' then some (c.toNat - '0'.toNat)
  else if 'a' ≤ c ∧ c ≤ 'f' then some (c.toNat - 'a'.toNat + 10)
  else if 'A' ≤ c ∧ c ≤ 'F' then some (c.toNat - 'A'.toNat + 10)
  else none

/-- Subset of urllib.parse.unquote: decodes percent escapes for ASCII
octets and for two-byte UTF-8 sequences (which cover the Hebrew text in
the crawled URLs); malformed escapes and longer sequences are left
unchanged. -/
def unquoteList : List Char → List Char
  | '%' :: a :: b :: '%' :: c :: d :: cs =>
    (match hexVal a, hexVal b, hexVal c, hexVal d with
     | some x1, some x2, some y1, some y2 =>
       let x := 16 * x1 + x2
       let y := 16 * y1 + y2
       if 0xC2 ≤ x ∧ x ≤ 0xDF ∧ 0x80 ≤ y ∧ y ≤ 0xBF then
         Char.ofNat ((x - 0xC0) * 64 + (y - 0x80)) :: unquoteList cs
       else if x < 0x80 then
         Char.ofNat x :: unquoteList ('%' :: c :: d :: cs)
       else
         '%' :: a :: b :: unquoteList ('%' :: c :: d :: cs)
     | some x1, some x2, _, _ =>
       let x := 16 * x1 + x2
       if x < 0x80 then Char.ofNat x :: unquoteList ('%' :: c :: d :: cs)
       else '%' :: a :: b :: unquoteList ('%' :: c :: d :: cs)
     | _, _, _, _ => '%' :: unquoteList (a :: b :: '%' :: c :: d :: cs))
  | '%' :: a :: b :: cs =>
    (match hexVal a, hexVal b with
     | some x1, some x2 =>
       let x := 16 * x1 + x2
       if x < 0x80 then Char.ofNat x :: unquoteList cs
       else '%' :: a :: b :: unquoteList cs
     | _, _ => '%' :: unquoteList (a :: b :: cs))
  | c :: cs => c :: unquoteList cs
  | [] => []

def unquote (s : String) : String := ⟨unquoteList s.data⟩

/-- A string all of whose characters are ASCII; percent-encoded URLs
are exactly the ASCII ones here. -/
def asciiStr (s : String) : Bool := s.data.all (fun c => c.toNat < 128)

/-- Adding an element to a Python set modelled as a duplicate-free list
(first-insertion order). -/
def setInsert (l : List String) (x : String) : List String :=
  if x ∈ l then l else l ++ [x]

/-- `set.update` over an iterable. -/
def setUnion (l : List String) (xs : List String) : List String :=
  xs.foldl setInsert l

end NomNom

namespace Ketochef

open NomNom

def BASE_URL : String := "https://ketochef.co.il/"

def RECIPES_URL : String := "https://ketochef.co.il/recipes/"

/-- ketochef is_recipe_link. -/
def is_recipe_link (link : String) : Bool :=
  let parsed := urlparse link
  if parsed.netloc ≠ "" ∧ parsed.netloc ≠ (urlparse BASE_URL).netloc then false
  else
    let path := rstripSlashes parsed.path
    if path = "/recipes" ∨ path = "/recipes/page" then false
    else if strStartsWith path "/recipes/page/" then false
    else strStartsWith path "/recipes/"

/-- ketochef is_listing_page. -/
def is_listing_page (link : String) : Bool :=
  let parsed := urlparse link
  if parsed.netloc ≠ "" ∧ parsed.netloc ≠ (urlparse BASE_URL).netloc then false
  else
    let path := rstripSlashes parsed.path
    if path = "/recipes" then true
    else if strStartsWith path "/recipes/page/" then true
    else strContains parsed.query "page=" && strStartsWith path "/recipes"

/-- ketochef normalize_links: resolve each href against the base and
keep the recipe-classified ones (a Python set, in insertion order). -/
def normalize_links (links : List String) : List String :=
  links.foldl
    (fun normalized link =>
      let absolute := urljoin BASE_URL link
      if is_recipe_link absolute then setInsert normalized absolute else normalized)
    []

end Ketochef

namespace KetoDiet

open NomNom

def BASE_URL : String := "https://keto-diet.co.il/"

def RECIPES_URL : String := "https://keto-diet.co.il/recipes"

/-- keto-diet is_recipe_link. -/
def is_recipe_link (link : String) : Bool :=
  let parsed := urlparse link
  if parsed.netloc ≠ "" ∧ parsed.netloc ≠ (urlparse BASE_URL).netloc then false
  else
    let path := rstripSlashes parsed.path
    if path = "/recipes" then false
    else if strStartsWith path "/recipe_type" then false
    else strContains path "/recipe" || strContains path "/recipes/"

/-- keto-diet is_listing_page. -/
def is_listing_page (link : String) : Bool :=
  let parsed := urlparse link
  if parsed.netloc ≠ "" ∧ parsed.netloc ≠ (urlparse BASE_URL).netloc then false
  else
    let path := rstripSlashes parsed.path
    if path = "/recipes" then true
    else strStartsWith path "/recipes" && (strContains path "/page/" || strContains parsed.query "page=")

end KetoDiet

namespace Omermiller

open NomNom

def BASE_URL : String := "https://omermiller.co.il/"

def CATEGORY_URL : String :=
  "https://omermiller.co.il/category/%D7%9E%D7%AA%D7%9B%D7%95%D7%A0%D7%99%D7%9D/"

def CATEGORY_PATH : String := unquote (urlparse CATEGORY_URL).path

/-- omermiller is_same_domain. -/
def is_same_domain (parsed : ParsedUrl) (base_url : String) : Bool :=
  parsed.netloc = "" || parsed.netloc = (urlparse base_url).netloc

/-- omermiller normalize_category_path. -/
def normalize_category_path (category_path : String) : String :=
  let normalized := rstripSlashes (unquote category_path)
  if strStartsWith normalized "/" then normalized else "/" ++ normalized

/-- omermiller is_category_root. -/
def is_category_root (path : String) (category_path : String) : Bool :=
  rstripSlashes (unquote path) = normalize_category_path category_path

/-- omermiller is_pagination_link. -/
def is_pagination_link (parsed : ParsedUrl) (category_path : String) : Bool :=
  let normalized_category := normalize_category_path category_path
  let normalized_path := rstripSlashes (unquote parsed.path)
  if parsed.query ≠ "" ∧ strContains parsed.query "paged=" then true
  else strStartsWith normalized_path (normalized_category ++ "/page/")

/-- omermiller is_recipe_link. -/
def is_recipe_link (url base_url category_path : String) : Bool :=
  let parsed := urlparse url
  if ¬ is_same_domain parsed base_url then false
  else
    let path := rstripSlashes (unquote parsed.path)
    if path = "" ∨ path = "/" then false
    else if is_category_root path category_path then false
    else if is_pagination_link parsed category_path then false
    else if strStartsWith path "/category/" ∨ strStartsWith path "/tag/" then false
    else if strStartsWith path "/wp-" then false
    else true

/-- omermiller is_listing_page. -/
def is_listing_page (url base_url category_path : String) : Bool :=
  let parsed := urlparse url
  if ¬ is_same_domain parsed base_url then false
  else is_pagination_link parsed category_path

/-- omermiller extract_recipe_links applied to already-extracted hrefs:
resolve, classify, store the unquoted absolute URL in a set. -/
def extract_recipe_links (links : List String)
    (base_url : String := BASE_URL) (category_path : String := CATEGORY_PATH) :
    List String :=
  links.foldl
    (fun recipes link =>
      let absolute := urljoin base_url link
      if is_recipe_link absolute base_url category_path then
        setInsert recipes (unquote absolute)
      else recipes)
    []

end Omermiller

namespace NomNom

/-- One callback of Python's HTMLParser, in document order: a start tag
with its attribute list, an end tag, or character data. -/
inductive HtmlEvent where
  | start (tag : String) (attrs : List (String × Option String))
  | close (tag : String)
  | text (s : String)
deriving DecidableEq, Repr

/-- The dict comprehension over attrs (later duplicates override)
followed by `.get(key, "")`, with `value or ""` for a None value. -/
def attrsGet (attrs : List (String × Option String)) (key : String) : String :=
  (attrs.foldl (fun acc kv => if kv.1 = key then some (kv.2.getD "") else acc) none).getD ""

/-- The class tokens of a start tag: split the class attribute on
whitespace, strip and lowercase each token. -/
def classTokens (attrs : List (String × Option String)) : List String :=
  (pyWords (attrsGet attrs "class")).map (fun t => lowerStr (pyStripStr t))

def ingredientClassHints : List String := ["ingredients", "ingredient", "recipe-ingredients"]

def instructionClassHints : List String := ["instructions", "instruction", "directions", "method"]

end NomNom

namespace Ketochef

open NomNom

/-- The mutable state of ketochef's RecipeContentParser; the section
stack is held top-first (Python appends to and pops from the end of the
list, and reads the hint with index -1). -/
structure RCPState where
  title : Option String
  inH1 : Bool
  headingBuffer : List String
  captureHeading : Bool
  sectionHeading : Option String
  sectionStack : List String
  ingredientsRaw : List String
  instructionsRaw : List String
deriving DecidableEq, Repr

def RCPState.init : RCPState := ⟨none, false, [], false, none, [], [], []⟩

/-- RecipeContentParser.handle_starttag. -/
def rcpStart (st : RCPState) (tag : String) (attrs : List (String × Option String)) : RCPState :=
  let tokens := classTokens attrs
  let st := if tag = "h1" then { st with inH1 := true } else st
  let st :=
    if tag = "h2" ∨ tag = "h3" ∨ tag = "h4" then
      { st with headingBuffer := [], captureHeading := true }
    else st
  if tokens.any (fun t => t ∈ ingredientClassHints) then
    { st with sectionStack := "ingredients" :: st.sectionStack }
  else if tokens.any (fun t => t ∈ instructionClassHints) then
    { st with sectionStack := "instructions" :: st.sectionStack }
  else
    { st with sectionStack := "" :: st.sectionStack }

/-- RecipeContentParser.handle_endtag. -/
def rcpClose (st : RCPState) (tag : String) : RCPState :=
  let st := if tag = "h1" then { st with inH1 := false } else st
  let st :=
    if (tag = "h2" ∨ tag = "h3" ∨ tag = "h4") ∧ st.captureHeading then
      let headingText := wsNorm (joinWith " " st.headingBuffer)
      { st with sectionHeading := classify_heading headingText,
                captureHeading := false, headingBuffer := [] }
    else st
  match st.sectionStack with
  | [] => st
  | _ :: rest => { st with sectionStack := rest }

/-- RecipeContentParser.handle_data. -/
def rcpData (st : RCPState) (data : String) : RCPState :=
  let text := wsNorm data
  if text = "" then st
  else
    let st :=
      if st.inH1 ∧ pyOr st.title "" = "" then { st with title := some text } else st
    if st.captureHeading then
      { st with headingBuffer := st.headingBuffer ++ [text] }
    else
      let activeSection :=
        match st.sectionStack with
        | top :: _ => if top ≠ "" then some top else st.sectionHeading
        | [] => st.sectionHeading
      if activeSection = some "ingredients" then
        { st with ingredientsRaw := st.ingredientsRaw ++ [text] }
      else if activeSection = some "instructions" then
        { st with instructionsRaw := st.instructionsRaw ++ [text] }
      else st

def rcpStep (st : RCPState) : HtmlEvent → RCPState
  | .start tag attrs => rcpStart st tag attrs
  | .close tag => rcpClose st tag
  | .text s => rcpData st s

/-- Feeding a whole event stream to ketochef's RecipeContentParser. -/
def rcpFeed (events : List HtmlEvent) : RCPState :=
  events.foldl rcpStep RCPState.init

/-- ketochef merge_section_data: heuristic entries first, then JSON-LD
entries; clean each, drop empties, heading-like entries and exact
duplicates. -/
def merge_section_data (raw json_ld : List String) : List String :=
  (raw ++ json_ld).foldl
    (fun merged entry =>
      let cleaned := cleanup_text entry
      if cleaned = "" then merged
      else if is_heading_text cleaned then merged
      else if cleaned ∈ merged then merged
      else merged ++ [cleaned])
    []

end Ketochef

namespace KetoDiet

open NomNom

/-- The mutable state of keto-diet's RecipeContentParser; the section
stack is held top-first (Python appends to and pops from the end of the
list, and reads the hint with index -1). -/
structure RCPState where
  title : Option String
  inH1 : Bool
  sectionStack : List String
  ingredients : List String
  instructions : List String
deriving DecidableEq, Repr

def RCPState.init : RCPState := ⟨none, false, [], [], []⟩

/-- RecipeContentParser.handle_starttag. -/
def rcpStart (st : RCPState) (tag : String) (attrs : List (String × Option String)) : RCPState :=
  let tokens := classTokens attrs
  let st := if tag = "h1" then { st with inH1 := true } else st
  if tokens.any (fun t => t ∈ ingredientClassHints) then
    { st with sectionStack := "ingredients" :: st.sectionStack }
  else if tokens.any (fun t => t ∈ instructionClassHints) then
    { st with sectionStack := "instructions" :: st.sectionStack }
  else
    { st with sectionStack := "" :: st.sectionStack }

/-- RecipeContentParser.handle_endtag. -/
def rcpClose (st : RCPState) (tag : String) : RCPState :=
  let st := if tag = "h1" then { st with inH1 := false } else st
  match st.sectionStack with
  | [] => st
  | _ :: rest => { st with sectionStack := rest }

/-- RecipeContentParser.handle_data. -/
def rcpData (st : RCPState) (data : String) : RCPState :=
  let text := wsNorm data
  if text = "" then st
  else
    let st :=
      if st.inH1 ∧ pyOr st.title "" = "" then { st with title := some text } else st
    match st.sectionStack with
    | [] => st
    | top :: _ =>
      if top = "ingredients" then { st with ingredients := st.ingredients ++ [text] }
      else if top = "instructions" then { st with instructions := st.instructions ++ [text] }
      else st

def rcpStep (st : RCPState) : HtmlEvent → RCPState
  | .start tag attrs => rcpStart st tag attrs
  | .close tag => rcpClose st tag
  | .text s => rcpData st s

/-- Feeding a whole event stream to keto-diet's RecipeContentParser. -/
def rcpFeed (events : List HtmlEvent) : RCPState :=
  events.foldl rcpStep RCPState.init

end KetoDiet

namespace NomNom

/-- JSON values as produced by json.loads. -/
inductive Json where
  | null
  | bool (b : Bool)
  | num (n : Int)
  | str (s : String)
  | arr (items : List Json)
  | obj (fields : List (String × Json))

/-- Python `dict.get` on a JSON object (json.loads keeps the last of
any duplicate keys, so the last binding wins). -/
def jsonGet : List (String × Json) → String → Option Json
  | [], _ => none
  | kv :: rest, key =>
    match jsonGet rest key with
    | some v => some v
    | none => if kv.1 = key then some kv.2 else none

/-- Python truthiness of a JSON-decoded value. -/
def jsonTruthy : Json → Bool
  | .null => false
  | .bool b => b
  | .num n => n != 0
  | .str s => s != ""
  | .arr items => !items.isEmpty
  | .obj fields => !fields.isEmpty

/-- Python str() on a JSON-decoded value, faithful for the scalar
shapes a recipe name takes; container reprs are abbreviated (no claim
evaluates them). -/
def pyStrOfJson : Json → String
  | .str s => s
  | .num n => toString n
  | .bool b => if b then "True" else "False"
  | .null => "None"
  | .arr _ => "<list>"
  | .obj _ => "<dict>"

end NomNom

namespace Ketochef

open NomNom

/-- ketochef is_recipe_type: the declared type, a string or a list, is
compared case-insensitively against "recipe" (Python's str() of a
non-string entry never equals "recipe"). -/
def is_recipe_type (fields : List (String × Json)) : Bool :=
  match jsonGet fields "@type" with
  | some (.arr entries) =>
    entries.any (fun e => match e with | .str s => lowerStr s == "recipe" | _ => false)
  | some (.str s) => lowerStr s == "recipe"
  | _ => false

/-- The first dict entry of a list that is recipe-typed (the loops in
find_recipe_object). -/
def findRecipeInList : List Json → Option (List (String × Json))
  | [] => none
  | .obj fields :: rest =>
    if is_recipe_type fields then some fields else findRecipeInList rest
  | _ :: rest => findRecipeInList rest

/-- ketochef find_recipe_object. -/
def find_recipe_object : Json → Option (List (String × Json))
  | .obj fields =>
    if is_recipe_type fields then some fields
    else
      (match jsonGet fields "@graph" with
       | some (.arr items) => findRecipeInList items
       | _ => none)
  | .arr items => findRecipeInList items
  | _ => none

/-- The list comprehension body of ketochef coerce_list: string entries
are cleaned, dict entries contribute their string "text" field, other
entries are ignored. -/
def coerceEntries : List Json → List String
  | [] => []
  | .str s :: rest => cleanup_text s :: coerceEntries rest
  | .obj fields :: rest =>
    (match jsonGet fields "text" with
     | some (.str t) => cleanup_text t :: coerceEntries rest
     | _ => coerceEntries rest)
  | _ :: rest => coerceEntries rest

/-- ketochef coerce_list (None, i.e. an absent key, is Json.null). -/
def coerce_list : Json → List String
  | .null => []
  | .str s => [cleanup_text s]
  | .arr entries => (coerceEntries entries).filter (fun item => item != "")
  | _ => []

mutual

/-- ketochef normalize_instructions: a bare string is one step, a list
is walked entry by entry, and a dict contributes its string "text"
field, else recursively its "itemListElement" value (last binding of
each key, matching dict semantics, via instrScan). -/
def normalize_instructions : Json → List String
  | .null => []
  | .bool _ => []
  | .num _ => []
  | .str s => [cleanup_text s]
  | .arr entries => (instrEntries entries).filter (fun step => step != "")
  | .obj fields =>
    match instrScan fields with
    | (some (.str t), _) => [cleanup_text t]
    | (_, some steps) => steps
    | _ => []

/-- The loop over a recipeInstructions list: string entries are
cleaned, dict entries are handled like the dict case above. -/
def instrEntries : List Json → List String
  | [] => []
  | .str s :: rest => cleanup_text s :: instrEntries rest
  | .obj fields :: rest =>
    (match instrScan fields with
     | (some (.str t), _) => [cleanup_text t]
     | (_, some steps) => steps
     | _ => []) ++ instrEntries rest
  | _ :: rest => instrEntries rest

/-- One structural pass over a dict's bindings collecting the last
"text" value and the recursively normalized last "itemListElement"
value (later bindings win, as in a Python dict built by json.loads). -/
def instrScan : List (String × Json) → Option Json × Option (List String)
  | [] => (none, none)
  | (k, v) :: rest =>
    let tailScan := instrScan rest
    let t := if tailScan.1.isSome then tailScan.1
             else if k = "text" then some v else none
    let il := if tailScan.2.isSome then tailScan.2
              else if k = "itemListElement" then some (normalize_instructions v) else none
    (t, il)

end

/-- ketochef extract_json_ld_recipe, modelled from the point where each
script block's text has been run through json.loads: a block is `none`
when json.loads raised (that block is skipped).  The regex locating the
script elements in the raw markup is not modelled.  A found recipe
object is used only when its name is truthy; otherwise the remaining
blocks are tried. -/
def extract_json_ld_recipe (blocks : List (Option Json)) : Option Recipe :=
  blocks.findSome? (fun block =>
    match block with
    | none => none
    | some data =>
      match find_recipe_object data with
      | none => none
      | some fields =>
        if fields.isEmpty then none
        else
          let name := (jsonGet fields "name").getD .null
          let ingredients := coerce_list ((jsonGet fields "recipeIngredient").getD .null)
          let instructions := normalize_instructions ((jsonGet fields "recipeInstructions").getD .null)
          if jsonTruthy name then some ⟨"", pyStrOfJson name, ingredients, instructions⟩
          else none)

/-- ketochef parse_recipe_html, as a function of the page's parsed
JSON-LD blocks and its markup event stream. -/
def parse_recipe_html (blocks : List (Option Json)) (events : List HtmlEvent) : Recipe :=
  let json_ld_recipe := extract_json_ld_recipe blocks
  let st := rcpFeed events
  let name := pyOr st.title (match json_ld_recipe with | some r => r.name | none => "")
  let ingredients := merge_section_data st.ingredientsRaw
      (match json_ld_recipe with | some r => r.ingredients | none => [])
  let instructions := merge_section_data st.instructionsRaw
      (match json_ld_recipe with | some r => r.instructions | none => [])
  ⟨"", name, ingredients, instructions⟩

/-- The URL-derived fallback in ketochef fetch_recipe:
url.rstrip("/").split("/")[-1].replace("-", " "). -/
def fallback_name (url : String) : String :=
  replaceChar ((pySplitChar (rstripSlashes url) (Char.ofNat 47)).getLastD "") (Char.ofNat 45) ' '

/-- ketochef fetch_recipe, given the already-fetched page's parsed
JSON-LD blocks and event stream. -/
def fetch_recipe (blocks : List (Option Json)) (events : List HtmlEvent) (url : String) : Recipe :=
  let recipe := parse_recipe_html blocks events
  let recipe := { recipe with url := url }
  if recipe.name = "" then { recipe with name := fallback_name url } else recipe

/-- ketochef collect_listing_pages.  The fetch capability and the
listing-page extractor are explicit parameters; `fuel` bounds the while
loop (Python runs it to exhaustion); `toVisit` is held top-first
(Python appends to and pops from the end of its list).  Besides the
result it returns the list of URLs passed to fetch, in call order.  A
fetch failure is caught: the page is skipped and the loop continues. -/
def collect_listing_pages
    (fetch : String → Except String String)
    (listingPagesOf : String → List String) :
    Nat → List String → List String → List String →
    Except String (List String) × List String
  | 0, _, seen, fetched => (.ok (seen.mergeSort (fun a b => a ≤ b)), fetched)
  | Nat.succ fuel, toVisit, seen, fetched =>
    match toVisit with
    | [] => (.ok (seen.mergeSort (fun a b => a ≤ b)), fetched)
    | url :: rest =>
      if url ∈ seen then collect_listing_pages fetch listingPagesOf fuel rest seen fetched
      else
        let seen := seen ++ [url]
        match fetch url with
        | .error _ =>
          collect_listing_pages fetch listingPagesOf fuel rest seen (fetched ++ [url])
        | .ok html =>
          let newPages := ((listingPagesOf html).filter (fun p => ¬ p ∈ seen)).reverse
          collect_listing_pages fetch listingPagesOf fuel (newPages ++ rest) seen
            (fetched ++ [url])

end Ketochef

namespace KetoDiet

open NomNom

/-- keto-diet: Python `entry.get("@type") or entry.get("type")`. -/
def entryType (fields : List (String × Json)) : Json :=
  let a := (jsonGet fields "@type").getD .null
  if jsonTruthy a then a else (jsonGet fields "type").getD .null

/-- keto-diet's recipe-type test on a candidate entry. -/
def isRecipeEntry (fields : List (String × Json)) : Bool :=
  match entryType fields with
  | .arr entries =>
    entries.any (fun t => match t with | .str s => lowerStr s == "recipe" | _ => false)
  | .str s => lowerStr s == "recipe"
  | _ => false

/-- keto-diet: str(entry.get("name") or "").strip(). -/
def kdName (fields : List (String × Json)) : String :=
  let n := (jsonGet fields "name").getD .null
  pyStripStr (pyStrOfJson (if jsonTruthy n then n else .str ""))

/-- keto-diet's recipeIngredient comprehension
[i.strip() for i in entry.get("recipeIngredient", []) if isinstance(i, str)].
Iterating a string yields its characters and iterating a dict yields its
keys; iterating null, a bool or a number raises TypeError, modelled as
an error. -/
def kdIngredients (fields : List (String × Json)) : Except String (List String) :=
  match (jsonGet fields "recipeIngredient").getD (.arr []) with
  | .arr entries =>
    .ok (entries.filterMap (fun e => match e with | .str s => some (pyStripStr s) | _ => none))
  | .str s => .ok (s.data.map (fun c => pyStripStr ⟨[c]⟩))
  | .obj fields2 => .ok (fields2.map (fun kv => pyStripStr kv.1))
  | _ => .error "TypeError: recipeIngredient value is not iterable"

/-- The loop over a recipeInstructions list in keto-diet. -/
def kdInstrEntries : List Json → List String
  | [] => []
  | .str s :: rest => pyStripStr s :: kdInstrEntries rest
  | .obj fields :: rest =>
    (match jsonGet fields "text" with
     | some (.str t) => pyStripStr t :: kdInstrEntries rest
     | _ => kdInstrEntries rest)
  | _ :: rest => kdInstrEntries rest

/-- keto-diet's recipeInstructions handling: a list is walked entry by
entry, a bare string is one step, anything else leaves the list empty. -/
def kdInstructions (fields : List (String × Json)) : List String :=
  match (jsonGet fields "recipeInstructions").getD (.arr []) with
  | .arr entries => kdInstrEntries entries
  | .str s => [pyStripStr s]
  | _ => []

/-- keto-diet: candidates = data if isinstance(data, list) else [data]. -/
def kdCandidates : Json → List Json
  | .arr items => items
  | j => [j]

/-- The inner loop of keto-diet extract_json_ld_recipe over one block's
candidates: the first recipe-typed dict entry is built into a Recipe
(regardless of its name); non-dict and non-recipe entries are skipped. -/
def kdScanEntries : List Json → Option (Except String Recipe)
  | [] => none
  | .obj fields :: rest =>
    if isRecipeEntry fields then
      some (match kdIngredients fields with
        | .error e => .error e
        | .ok ings => .ok ⟨"", kdName fields, ings, kdInstructions fields⟩)
    else kdScanEntries rest
  | _ :: rest => kdScanEntries rest

/-- keto-diet extract_json_ld_recipe, modelled from the point where
each script block's text has been run through json.loads (`none` = a
json.loads error, that block is skipped). -/
def extract_json_ld_recipe (blocks : List (Option Json)) : Except String (Option Recipe) :=
  match blocks with
  | [] => .ok none
  | none :: rest => extract_json_ld_recipe rest
  | some data :: rest =>
    match kdScanEntries (kdCandidates data) with
    | some (.error e) => .error e
    | some (.ok r) => .ok (some r)
    | none => extract_json_ld_recipe rest

/-- keto-diet extract_recipe_details: structured data wins only when it
carries a non-empty name, otherwise the heuristic parser's output is
used. -/
def extract_recipe_details (blocks : List (Option Json)) (events : List HtmlEvent)
    (url : String) : Except String Recipe :=
  match extract_json_ld_recipe blocks with
  | .error e => .error e
  | .ok json_ld_recipe =>
    match json_ld_recipe with
    | some r =>
      if r.name ≠ "" then .ok { r with url := url }
      else
        let st := rcpFeed events
        .ok ⟨url, pyOr st.title "", st.ingredients, st.instructions⟩
    | none =>
      let st := rcpFeed events
      .ok ⟨url, pyOr st.title "", st.ingredients, st.instructions⟩

end KetoDiet

namespace Omermiller

open NomNom

/-- omermiller collect_all_recipe_links.  The fetch capability and the
two per-page link extractors are explicit parameters; `fuel` bounds the
while loop (Python runs it to exhaustion); `toVisit` is held top-first
(Python appends to and pops from the end of its list).  Besides the
result it returns the list of URLs passed to fetch, in call order.
There is no try/except around fetch in this loop, so a fetch failure
propagates to the caller. -/
def collect_all_recipe_links
    (fetch : String → Except String String)
    (recipeLinksOf listingPagesOf : String → List String) :
    Nat → List String → List String → List String → List String →
    Except String (List String) × List String
  | 0, _, _, recipes, fetched => (.ok recipes, fetched)
  | Nat.succ fuel, toVisit, visited, recipes, fetched =>
    match toVisit with
    | [] => (.ok recipes, fetched)
    | current :: rest =>
      if current ∈ visited then
        collect_all_recipe_links fetch recipeLinksOf listingPagesOf fuel
          rest visited recipes fetched
      else
        let visited := current :: visited
        match fetch current with
        | .error e => (.error e, fetched ++ [current])
        | .ok html =>
          let recipes := setUnion recipes (recipeLinksOf html)
          let newPages := ((listingPagesOf html).filter (fun p => ¬ p ∈ visited)).reverse
          collect_all_recipe_links fetch recipeLinksOf listingPagesOf fuel
            (newPages ++ rest) visited recipes (fetched ++ [current])

end Omermiller

namespace NomNom

/-- Whether an Except value is a success. -/
def exceptIsOk {ε α : Type} : Except ε α → Bool
  | .ok _ => true
  | .error _ => false

end NomNom

section SpecSideDefs

open NomNom

/-- The depth-scoping scenario of claim C2: inside one subtree a level-2
heading "Ingredients" followed by a list of three items; then a sibling
subtree with an unrelated list. -/
def c2Events : List HtmlEvent :=
  [.start "div" [], .start "h2" [], .text "Ingredients", .close "h2",
   .start "ul" [], .start "li" [], .text "item one", .close "li",
   .start "li" [], .text "item two", .close "li",
   .start "li" [], .text "item three", .close "li", .close "ul", .close "div",
   .start "div" [], .start "ul" [], .start "li" [], .text "unrelated", .close "li",
   .close "ul", .close "div"]

/-- A list item nested inside an element whose class names an
ingredients section. -/
def c8NestedEvents : List HtmlEvent :=
  [.start "div" [("class", some "ingredients")], .start "li" [], .text "2 eggs",
   .close "li", .close "div"]

/-- Text directly inside an element whose class names an ingredients
section. -/
def c8DirectEvents : List HtmlEvent :=
  [.start "div" [("class", some "ingredients")], .text "2 eggs", .close "div"]

/-- Keep the first occurrence of each string, formulated by filtering
later duplicates away. -/
def dedupFirst : List String → List String
  | [] => []
  | x :: xs => x :: dedupFirst (xs.filter (fun y => y ≠ x))
termination_by l => l.length
decreasing_by
  simp_wf
  exact Nat.lt_succ_of_le (List.length_filter_le _ _)

/-- An entry survives the union merge when its normalized text is
non-empty and not heading-like. -/
def keptEntry (c : String) : Bool := c != "" && !is_heading_text c

/-- The union merge pipeline as the specification words it: normalize
each entry of the concatenation, drop empties and heading-like entries,
keep the first occurrence of each normalized text. -/
def specUnionMerge (first second : List String) : List String :=
  dedupFirst (((first ++ second).map cleanup_text).filter keptEntry)

/-- The head, if any, is not whitespace. -/
def headNotWs : List Char → Bool
  | [] => true
  | c :: _ => !isWs c

/-- The last character, if any, is not whitespace. -/
def lastNotWs : List Char → Bool
  | [] => true
  | [c] => !isWs c
  | _ :: c :: cs => lastNotWs (c :: cs)

/-- No two adjacent whitespace characters. -/
def noAdjWs : List Char → Bool
  | [] => true
  | [_] => true
  | a :: b :: rest => !(isWs a && isWs b) && noAdjWs (b :: rest)

/-- Every whitespace character is a plain space. -/
def allWsSpace (l : List Char) : Bool := l.all (fun c => !isWs c || c == ' ')

/-- A JSON-LD block carrying a Recipe with a non-empty name. -/
def c3Blocks : List (Option Json) :=
  [some (.obj [("@type", .str "Recipe"), ("name", .str "Structured Name")])]

/-- A page whose h1 carries a non-empty heuristic title. -/
def c3Events : List HtmlEvent := [.start "h1" [], .text "Heuristic Title", .close "h1"]

/-- Truthiness of an entry's name field (an absent key is None). -/
def nameTruthy (fields : List (String × Json)) : Bool :=
  jsonTruthy ((jsonGet fields "name").getD .null)

end SpecSideDefs

section ClaimC1

open NomNom

/-- Claim C1, counterexample: a same-origin URL whose path lies under
the listing root and whose query carries a page parameter is classified
as both a recipe link and a listing page by the ketochef classifier,
and the keto-diet classifier does the same for a pagination path, so
the two predicates are not mutually exclusive. -/
theorem c1_counterexample :
    Ketochef.is_recipe_link "https://ketochef.co.il/recipes/x?page=2" = true ∧
    Ketochef.is_listing_page "https://ketochef.co.il/recipes/x?page=2" = true ∧
    KetoDiet.is_recipe_link "https://keto-diet.co.il/recipes/page/2" = true ∧
    KetoDiet.is_listing_page "https://keto-diet.co.il/recipes/page/2" = true := by
  refine ⟨by decide, by decide, by decide, by decide⟩

/-- Claim C1, amended: under each scraper's fixed base origin and
listing-root path, is_recipe_link and is_listing_page are mutually
exclusive for every URL whose query string contains no "page="
parameter and whose slash-trimmed path contains no "/page/" segment;
URLs with a page query parameter under the listing root (and, for
keto-diet, pagination paths) are classified as both. -/
theorem c1_theorem (u : String)
    (hq : strContains (urlparse u).query "page=" = false)
    (hp : strContains (rstripSlashes (urlparse u).path) "/page/" = false) :
    ¬ (Ketochef.is_recipe_link u = true ∧ Ketochef.is_listing_page u = true) ∧
    ¬ (KetoDiet.is_recipe_link u = true ∧ KetoDiet.is_listing_page u = true) := by
  constructor
  · rintro ⟨hr, hl⟩
    simp only [Ketochef.is_recipe_link, Ketochef.is_listing_page] at hr hl
    split_ifs at hr hl <;> simp_all
  · rintro ⟨hr, hl⟩
    simp only [KetoDiet.is_recipe_link, KetoDiet.is_listing_page] at hr hl
    split_ifs at hr hl <;> simp_all

/-- Witness for c1_theorem at a concrete recipe URL. -/
theorem c1_witness :
    ¬ (Ketochef.is_recipe_link "https://ketochef.co.il/recipes/tofu" = true ∧
       Ketochef.is_listing_page "https://ketochef.co.il/recipes/tofu" = true) ∧
    ¬ (KetoDiet.is_recipe_link "https://ketochef.co.il/recipes/tofu" = true ∧
       KetoDiet.is_listing_page "https://ketochef.co.il/recipes/tofu" = true) :=
  c1_theorem "https://ketochef.co.il/recipes/tofu" (by decide) (by decide)

end ClaimC1

section ClaimC2

open NomNom

/-- Claim C2, counterexample: on the claimed scenario the ketochef
heuristic extractor also captures the unrelated item from the sibling
subtree, so the heading-driven section is not scoped to the heading's
subtree. -/
theorem c2_counterexample :
    (Ketochef.rcpFeed c2Events).ingredientsRaw ≠ ["item one", "item two", "item three"] := by
  decide

/-- Claim C2, amended: the heading-driven section records no depth
floor and is never cleared by leaving a subtree: handle_starttag never
changes it, handle_endtag changes it only when a level 2-4 heading
closes, and on the claimed scenario the three items and the unrelated
item from the sibling subtree are all appended to ingredients. -/
theorem c2_theorem :
    (∀ (st : Ketochef.RCPState) (tag : String) (attrs : List (String × Option String)),
       (Ketochef.rcpStart st tag attrs).sectionHeading = st.sectionHeading) ∧
    (∀ (st : Ketochef.RCPState) (tag : String),
       ¬ (tag = "h2" ∨ tag = "h3" ∨ tag = "h4") →
       (Ketochef.rcpClose st tag).sectionHeading = st.sectionHeading) ∧
    (Ketochef.rcpFeed c2Events).ingredientsRaw =
      ["item one", "item two", "item three", "unrelated"] := by
  refine ⟨?_, ?_, by decide⟩
  · intro st tag attrs
    simp only [Ketochef.rcpStart]
    split_ifs <;> rfl
  · intro st tag h
    obtain ⟨t, i, hb, cap, sec, stack, ing, ins⟩ := st
    by_cases h1 : tag = "h1"
    · simp only [Ketochef.rcpClose, if_pos h1, if_neg (fun hb1 => h (And.left hb1))]
      cases stack <;> rfl
    · simp only [Ketochef.rcpClose, if_neg h1, if_neg (fun hb1 => h (And.left hb1))]
      cases stack <;> rfl

/-- Witness for c2_theorem: closing a div leaves the active
heading-driven section in place. -/
theorem c2_witness :
    (Ketochef.rcpClose ⟨none, false, [], false, some "ingredients", [""], [], []⟩
      "div").sectionHeading = some "ingredients" :=
  c2_theorem.2.1 ⟨none, false, [], false, some "ingredients", [""], [], []⟩ "div" (by decide)

end ClaimC2

section ClaimC8

open NomNom

/-- Claim C8, counterexample: an li nested inside a div with class
"ingredients" contributes nothing in either parser, because the li
pushes an empty hint that shadows the enclosing one. -/
theorem c8_counterexample :
    (KetoDiet.rcpFeed c8NestedEvents).ingredients = [] ∧
    (Ketochef.rcpFeed c8NestedEvents).ingredientsRaw = [] := by
  refine ⟨by decide, by decide⟩

/-- Claim C8, amended: a class-hint section is not inherited by nested
elements: keto-diet's handle_data appends text exactly when the
innermost open element pushed the corresponding hint (the top of the
section stack), so text directly inside the hinted element is captured
while the same text inside a nested plain li is not. -/
theorem c8_theorem :
    (∀ (st : KetoDiet.RCPState) (d : String),
       (KetoDiet.rcpData st d).ingredients =
         (if wsNorm d ≠ "" ∧ st.sectionStack.headD "" = "ingredients"
          then st.ingredients ++ [wsNorm d] else st.ingredients)) ∧
    (∀ (st : KetoDiet.RCPState) (d : String),
       (KetoDiet.rcpData st d).instructions =
         (if wsNorm d ≠ "" ∧ st.sectionStack.headD "" = "instructions"
          then st.instructions ++ [wsNorm d] else st.instructions)) ∧
    (KetoDiet.rcpFeed c8DirectEvents).ingredients = ["2 eggs"] ∧
    (KetoDiet.rcpFeed c8NestedEvents).ingredients = [] := by
  refine ⟨?_, ?_, by decide, by decide⟩
  · intro st d
    obtain ⟨t, i, stack, ing, ins⟩ := st
    by_cases hd : wsNorm d = ""
    · simp [KetoDiet.rcpData, hd]
    · cases stack with
      | nil => simp [KetoDiet.rcpData, hd, apply_ite, ite_self]
      | cons top rest =>
        by_cases ht : top = "ingredients" <;> by_cases h2 : top = "instructions" <;>
          simp [KetoDiet.rcpData, hd, ht, h2, apply_ite, ite_self]
  · intro st d
    obtain ⟨t, i, stack, ing, ins⟩ := st
    by_cases hd : wsNorm d = ""
    · simp [KetoDiet.rcpData, hd]
    · cases stack with
      | nil => simp [KetoDiet.rcpData, hd, apply_ite, ite_self]
      | cons top rest =>
        by_cases ht : top = "ingredients" <;> by_cases h2 : top = "instructions" <;>
          simp [KetoDiet.rcpData, hd, ht, h2, apply_ite, ite_self]

end ClaimC8

section ClaimC6

open NomNom

theorem dedupFirst_nil : dedupFirst [] = [] := by rw [dedupFirst]

theorem dedupFirst_cons (x : String) (xs : List String) :
    dedupFirst (x :: xs) = x :: dedupFirst (xs.filter (fun y => y ≠ x)) := by
  rw [dedupFirst]

theorem mem_dedupFirst {x : String} : ∀ {l : List String}, x ∈ dedupFirst l → x ∈ l := by
  intro l
  induction l using dedupFirst.induct with
  | case1 => simp [dedupFirst_nil]
  | case2 y ys ih =>
    rw [dedupFirst_cons]
    intro hmem
    rcases List.mem_cons.mp hmem with rfl | hmem2
    · exact List.mem_cons_self _ _
    · exact List.mem_cons_of_mem _ (List.mem_of_mem_filter (ih hmem2))

theorem nodup_dedupFirst : ∀ (l : List String), (dedupFirst l).Nodup := by
  intro l
  induction l using dedupFirst.induct with
  | case1 => rw [dedupFirst_nil]; exact List.nodup_nil
  | case2 y ys ih =>
    rw [dedupFirst_cons]
    refine List.Nodup.cons ?_ ih
    intro hmem
    have := List.of_mem_filter (mem_dedupFirst hmem)
    simp at this

/-- The merge loop, started from any accumulator, appends exactly the
deduplicated cleaned survivors not already present. -/
theorem mergeFold_eq (l : List String) : ∀ acc : List String,
    l.foldl
      (fun merged entry =>
        let cleaned := cleanup_text entry
        if cleaned = "" then merged
        else if is_heading_text cleaned then merged
        else if cleaned ∈ merged then merged
        else merged ++ [cleaned]) acc
      = acc ++ dedupFirst (((l.map cleanup_text).filter keptEntry).filter
          (fun c => c ∉ acc)) := by
  induction l with
  | nil => simp [dedupFirst_nil]
  | cons e l ih =>
    intro acc
    rw [List.foldl_cons, List.map_cons]
    by_cases h0 : cleanup_text e = ""
    · have hk : keptEntry (cleanup_text e) = false := by simp [keptEntry, h0]
      simp only [h0, if_pos rfl] at *
      rw [List.filter_cons_of_neg (by simp [hk, h0]), ih]
      simp [h0]
    · by_cases h1 : is_heading_text (cleanup_text e) = true
      · have hk : keptEntry (cleanup_text e) = false := by simp [keptEntry, h1]
        rw [List.filter_cons_of_neg (by simp [hk])]
        simp only [if_neg h0, h1, if_pos rfl]
        exact ih acc
      · have hk : keptEntry (cleanup_text e) = true := by
          simp [keptEntry, h0, Bool.not_eq_true] at *
          simp [h1]
        rw [List.filter_cons_of_pos (by simp [hk])]
        by_cases h2 : cleanup_text e ∈ acc
        · rw [List.filter_cons_of_neg (by simp [h2])]
          simp only [if_neg h0, if_neg (by simp [h1] : ¬ is_heading_text (cleanup_text e) = true),
            if_pos h2]
          exact ih acc
        · rw [List.filter_cons_of_pos (by simp [h2])]
          simp only [if_neg h0, if_neg (by simp [h1] : ¬ is_heading_text (cleanup_text e) = true),
            if_neg h2]
          rw [ih (acc ++ [cleanup_text e])]
          rw [dedupFirst_cons]
          simp only [List.filter_filter]
          rw [List.append_assoc, List.singleton_append]
          congr 2
          refine congrArg dedupFirst (List.filter_congr ?_)
          intro x _
          by_cases hx1 : x ∈ acc <;> by_cases hx2 : x = cleanup_text e <;>
            simp [hx1, hx2]

/-- Claim C6, counterexample: with one heuristic entry "h" and one
structured entry "s" the merged list is the heuristic entry followed by
the structured one, not the structured-then-heuristic order the claim
states. -/
theorem c6_counterexample :
    Ketochef.merge_section_data ["h"] ["s"] = ["h", "s"] ∧
    Ketochef.merge_section_data ["h"] ["s"] ≠ specUnionMerge ["s"] ["h"] := by
  have h2 : specUnionMerge ["s"] ["h"] = ["s", "h"] := by
    rw [specUnionMerge]
    have hm : ((["s"] ++ ["h"]).map cleanup_text).filter keptEntry = ["s", "h"] := by decide
    rw [hm, dedupFirst_cons]
    have hf : (["h"].filter (fun y => y ≠ "s")) = ["h"] := by decide
    rw [hf, dedupFirst_cons]
    have hf2 : (List.filter (fun y => y ≠ "h") ([] : List String)) = [] := rfl
    rw [hf2, dedupFirst_nil]
  refine ⟨by decide, ?_⟩
  rw [h2]
  decide

/-- Claim C6, amended: the merged list is the concatenation of the
heuristic entries followed by the structured entries, each normalized,
with empty entries, heading-keyword entries and duplicates of an
earlier normalized text dropped (first occurrence kept); in particular
the result is duplicate-free. -/
theorem c6_theorem (raw json_ld : List String) :
    Ketochef.merge_section_data raw json_ld = specUnionMerge raw json_ld ∧
    (Ketochef.merge_section_data raw json_ld).Nodup := by
  have h := mergeFold_eq (raw ++ json_ld) []
  simp only [List.not_mem_nil, not_false_iff, List.filter_true] at h
  constructor
  · rw [Ketochef.merge_section_data, specUnionMerge, h]
    simp [List.filter_true]
  · rw [Ketochef.merge_section_data, h]
    simpa using nodup_dedupFirst _

end ClaimC6

section ClaimC7

open NomNom

theorem noAdjWs_cons (a : Char) (l : List Char) :
    noAdjWs (a :: l) = ((!isWs a || headNotWs l) && noAdjWs l) := by
  cases l <;> simp [noAdjWs, headNotWs, Bool.not_and]

theorem noAdjWs_tail {a : Char} {l : List Char} (h : noAdjWs (a :: l) = true) :
    noAdjWs l = true := by
  rw [noAdjWs_cons] at h
  exact (Bool.and_eq_true_iff.mp h).2

theorem collapseAux_canon (l : List Char) :
    (allWsSpace (collapseAux isWs true l) = true ∧
     allWsSpace (collapseAux isWs false l) = true) ∧
    (noAdjWs (collapseAux isWs true l) = true ∧
     noAdjWs (collapseAux isWs false l) = true) ∧
    headNotWs (collapseAux isWs true l) = true := by
  induction l with
  | nil => refine ⟨⟨rfl, rfl⟩, ⟨rfl, rfl⟩, rfl⟩
  | cons c cs ih =>
    obtain ⟨⟨hA1, hA0⟩, ⟨hN1, hN0⟩, hH⟩ := ih
    by_cases hc : isWs c = true
    · simp only [collapseAux, hc, if_true, if_false, Bool.false_eq_true]
      refine ⟨⟨hA1, ?_⟩, ⟨hN1, ?_⟩, hH⟩
      · simpa [allWsSpace] using hA1
      · rw [noAdjWs_cons, Bool.and_eq_true]
        exact ⟨by simp [hH], hN1⟩
    · simp only [collapseAux, hc, if_false, Bool.false_eq_true]
      have hBc : (!isWs c || c == ' ') = true := by simp [hc]
      refine ⟨⟨?_, ?_⟩, ⟨?_, ?_⟩, ?_⟩
      · simpa [allWsSpace, hBc] using hA0
      · simpa [allWsSpace, hBc] using hA0
      · rw [noAdjWs_cons, Bool.and_eq_true]
        exact ⟨by simp [hc], hN0⟩
      · rw [noAdjWs_cons, Bool.and_eq_true]
        exact ⟨by simp [hc], hN0⟩
      · simp [headNotWs, hc]

theorem headNotWs_dropWhile (l : List Char) : headNotWs (l.dropWhile isWs) = true := by
  induction l with
  | nil => rfl
  | cons c cs ih =>
    by_cases hc : isWs c = true
    · rw [List.dropWhile_cons, if_pos hc]
      exact ih
    · rw [List.dropWhile_cons, if_neg (by simp [hc])]
      simp [headNotWs, hc]

theorem dropWhile_eq_self_of_headNotWs {l : List Char} (h : headNotWs l = true) :
    l.dropWhile isWs = l := by
  cases l with
  | nil => rfl
  | cons c cs =>
    simp only [headNotWs, Bool.not_eq_true'] at h
    simp [List.dropWhile_cons, h]

theorem noAdjWs_dropWhile {l : List Char} (h : noAdjWs l = true) :
    noAdjWs (l.dropWhile isWs) = true := by
  induction l with
  | nil => exact h
  | cons c cs ih =>
    by_cases hc : isWs c = true
    · rw [List.dropWhile_cons, if_pos hc]
      exact ih (noAdjWs_tail h)
    · rw [List.dropWhile_cons, if_neg (by simp [hc])]
      exact h

theorem dropTrailing_sublist (p : Char → Bool) (l : List Char) :
    (dropTrailing p l).Sublist l := by
  induction l with
  | nil => simp [dropTrailing]
  | cons c cs ih =>
    rw [dropTrailing]
    cases h : dropTrailing p cs with
    | nil =>
      by_cases hc : p c = true
      · simp [hc]
      · simp only [hc, Bool.false_eq_true, if_false]
        exact (List.nil_sublist cs).cons₂ c
    | cons d ds =>
      rw [h] at ih
      exact ih.cons₂ c

theorem dropTrailing_head (p : Char → Bool) (c : Char) (cs : List Char) :
    dropTrailing p (c :: cs) = [] ∨ ∃ ys, dropTrailing p (c :: cs) = c :: ys := by
  rw [dropTrailing]
  cases dropTrailing p cs with
  | nil =>
    by_cases hc : p c = true
    · left; simp [hc]
    · right; exact ⟨[], by simp [hc]⟩
  | cons d ds => right; exact ⟨d :: ds, rfl⟩

theorem lastNotWs_dropTrailing (l : List Char) : lastNotWs (dropTrailing isWs l) = true := by
  induction l with
  | nil => rfl
  | cons c cs ih =>
    rw [dropTrailing]
    cases h : dropTrailing isWs cs with
    | nil =>
      by_cases hc : isWs c = true
      · simp [hc, lastNotWs]
      · simp [hc, lastNotWs]
    | cons d ds =>
      rw [h] at ih
      simpa [lastNotWs] using ih

theorem headNotWs_dropTrailing {l : List Char} (h : headNotWs l = true) :
    headNotWs (dropTrailing isWs l) = true := by
  cases l with
  | nil => rfl
  | cons c cs =>
    rcases dropTrailing_head isWs c cs with h0 | ⟨ys, h0⟩ <;> rw [h0]
    · rfl
    · simpa [headNotWs] using h

theorem noAdjWs_dropTrailing {l : List Char} (h : noAdjWs l = true) :
    noAdjWs (dropTrailing isWs l) = true := by
  induction l with
  | nil => exact h
  | cons c cs ih =>
    rw [dropTrailing]
    cases hd : dropTrailing isWs cs with
    | nil =>
      by_cases hc : isWs c = true <;> simp [hc, noAdjWs]
    | cons d ds =>
      have htail := ih (noAdjWs_tail h)
      rw [hd] at htail
      rw [noAdjWs_cons, Bool.and_eq_true]
      refine ⟨?_, htail⟩
      cases cs with
      | nil => simp [dropTrailing] at hd
      | cons x xs =>
        rcases dropTrailing_head isWs x xs with h0 | ⟨ys, h0⟩
        · rw [h0] at hd; cases hd
        · rw [h0] at hd
          injection hd with h1 h2
          subst h1
          rw [noAdjWs_cons] at h
          have hh := (Bool.and_eq_true_iff.mp h).1
          simpa [headNotWs] using hh

theorem dropTrailing_eq_self {l : List Char} (h : lastNotWs l = true) :
    dropTrailing isWs l = l := by
  induction l with
  | nil => rfl
  | cons c cs ih =>
    cases cs with
    | nil =>
      simp only [lastNotWs, Bool.not_eq_true'] at h
      simp [dropTrailing, h]
    | cons d ds =>
      rw [lastNotWs] at h
      have hcs := ih h
      rw [dropTrailing, hcs]

theorem allWsSpace_sublist {l1 l2 : List Char} (hs : l1.Sublist l2)
    (h : allWsSpace l2 = true) : allWsSpace l1 = true := by
  rw [allWsSpace, List.all_eq_true] at *
  exact fun x hx => h x (hs.subset hx)

theorem collapseAux_eq_self (l : List Char) :
    allWsSpace l = true → noAdjWs l = true →
      ((headNotWs l = true → collapseAux isWs true l = l) ∧
       collapseAux isWs false l = l) := by
  induction l with
  | nil => exact fun _ _ => ⟨fun _ => rfl, rfl⟩
  | cons c cs ih =>
    intro hA hN
    have hAc : (!isWs c || c == ' ') = true := by
      rw [allWsSpace, List.all_cons, Bool.and_eq_true] at hA
      exact hA.1
    have hAcs : allWsSpace cs = true := by
      rw [allWsSpace, List.all_cons, Bool.and_eq_true] at hA
      exact hA.2
    have hNcs : noAdjWs cs = true := noAdjWs_tail hN
    by_cases hc : isWs c = true
    · have hcsp : c = ' ' := by
        rcases Bool.or_eq_true_iff.mp hAc with h2 | h2
        · rw [hc] at h2; cases h2
        · exact eq_of_beq h2
      have hH : headNotWs cs = true := by
        rw [noAdjWs_cons] at hN
        have h1 := (Bool.and_eq_true_iff.mp hN).1
        rcases Bool.or_eq_true_iff.mp h1 with h2 | h2
        · rw [hc] at h2; cases h2
        · exact h2
      refine ⟨?_, ?_⟩
      · intro hHl
        exfalso
        simp [headNotWs, hc] at hHl
      · have hrec := ((ih hAcs hNcs).1) hH
        simp only [collapseAux, hc, if_true]
        simp [hrec, hcsp]
    · have hrec := (ih hAcs hNcs).2
      have hgoal : collapseAux isWs true (c :: cs) = c :: cs := by
        simp only [collapseAux, hc, Bool.false_eq_true, if_false]
        rw [hrec]
      refine ⟨fun _ => hgoal, ?_⟩
      simp only [collapseAux, hc, Bool.false_eq_true, if_false]
      rw [hrec]

/-- The output of collapse-then-strip is canonical: only plain spaces,
no adjacent whitespace, no leading or trailing whitespace. -/
theorem cleanup_canon (l0 : List Char) :
    allWsSpace (stripList (collapseRuns isWs l0)) = true ∧
    noAdjWs (stripList (collapseRuns isWs l0)) = true ∧
    headNotWs (stripList (collapseRuns isWs l0)) = true ∧
    lastNotWs (stripList (collapseRuns isWs l0)) = true := by
  obtain ⟨⟨_, hA0⟩, ⟨_, hN0⟩, _⟩ := collapseAux_canon l0
  rw [collapseRuns] at *
  rw [stripList]
  refine ⟨?_, ?_, ?_, ?_⟩
  · exact allWsSpace_sublist
      ((dropTrailing_sublist _ _).trans (List.dropWhile_sublist _)) hA0
  · exact noAdjWs_dropTrailing (noAdjWs_dropWhile hN0)
  · exact headNotWs_dropTrailing (headNotWs_dropWhile _)
  · exact lastNotWs_dropTrailing _

/-- Claim C7, counterexample: normalize is not idempotent, because
html.unescape decodes one entity level per pass; on the double-escaped
ampersand the first pass yields one string and the second a different
one. -/
theorem c7_counterexample :
    cleanup_text (cleanup_text "&amp;amp;") ≠ cleanup_text "&amp;amp;" := by
  decide

/-- Claim C7, amended: normalize is idempotent exactly when entity
decoding has stabilized: for every string x whose normalized form
decodes to itself (in particular any x whose normalized form contains
no remaining character reference), normalize (normalize x) =
normalize x; the whitespace collapsing and trimming passes are always
idempotent. -/
theorem c7_theorem (x : String)
    (h : unescapeStr (cleanup_text x) = cleanup_text x) :
    cleanup_text (cleanup_text x) = cleanup_text x := by
  have hdata : unescapeList (cleanup_text x).data = (cleanup_text x).data :=
    congrArg String.data h
  obtain ⟨hA, hN, hH, hL⟩ := cleanup_canon (unescapeList x.data)
  have hrep : (cleanup_text x).data = stripList (collapseRuns isWs (unescapeList x.data)) := rfl
  have hcoll : collapseRuns isWs (cleanup_text x).data = (cleanup_text x).data := by
    rw [hrep]
    exact (collapseAux_eq_self _ hA hN).2
  have hstrip : stripList (cleanup_text x).data = (cleanup_text x).data := by
    show dropTrailing isWs ((cleanup_text x).data.dropWhile isWs) = (cleanup_text x).data
    rw [dropWhile_eq_self_of_headNotWs (by rw [hrep]; exact hH)]
    exact dropTrailing_eq_self (by rw [hrep]; exact hL)
  show String.mk (stripList (collapseRuns isWs (unescapeList (cleanup_text x).data)))
      = cleanup_text x
  rw [hdata, hcoll, hstrip]

/-- Witness for c7_theorem on a concrete entity-free string. -/
theorem c7_witness :
    unescapeStr (cleanup_text "a  b") = cleanup_text "a  b" ∧
    cleanup_text (cleanup_text "a  b") = cleanup_text "a  b" :=
  ⟨by decide, c7_theorem "a  b" (by decide)⟩

end ClaimC7

section ClaimC3

open NomNom

/-- Python `a or b` falls through when the first operand is falsy. -/
theorem pyOr_eq_of_falsy {a : Option String} (b : String) (h : pyOr a "" = "") :
    pyOr a b = b := by
  cases a with
  | none => rfl
  | some s =>
    by_cases hs : s == ""
    · simp [pyOr, hs]
    · simp [pyOr, hs] at h
      exact absurd h (by simpa using hs)

/-- Claim C3, counterexample: on a page carrying both a non-empty
structured (JSON-LD) name and a non-empty heuristic h1 title, the
ketochef merged name is the heuristic title, not the structured name
the claim puts first. -/
theorem c3_counterexample :
    (Ketochef.extract_json_ld_recipe c3Blocks).map Recipe.name = some "Structured Name" ∧
    (Ketochef.fetch_recipe c3Blocks c3Events "https://ketochef.co.il/recipe/x").name
      = "Heuristic Title" := by
  refine ⟨by decide, by decide⟩

/-- Claim C3, amended: in ketochef the merged name is the heuristic
title when non-empty, otherwise the structured (JSON-LD) name,
otherwise the last path segment of the URL with hyphens replaced by
spaces, hence non-empty whenever that fallback segment is non-empty; in
keto-diet a structured recipe with non-empty name wins, otherwise the
heuristic title or the empty string (no URL fallback). -/
theorem c3_theorem :
    (∀ (blocks : List (Option Json)) (events : List HtmlEvent) (url t : String),
       (Ketochef.rcpFeed events).title = some t → t ≠ "" →
       (Ketochef.fetch_recipe blocks events url).name = t) ∧
    (∀ (blocks : List (Option Json)) (events : List HtmlEvent) (url : String) (r : Recipe),
       pyOr (Ketochef.rcpFeed events).title "" = "" →
       Ketochef.extract_json_ld_recipe blocks = some r → r.name ≠ "" →
       (Ketochef.fetch_recipe blocks events url).name = r.name) ∧
    (∀ (blocks : List (Option Json)) (events : List HtmlEvent) (url : String),
       pyOr (Ketochef.rcpFeed events).title "" = "" →
       Ketochef.extract_json_ld_recipe blocks = none →
       (Ketochef.fetch_recipe blocks events url).name = Ketochef.fallback_name url) ∧
    (∀ (blocks : List (Option Json)) (events : List HtmlEvent) (url : String),
       Ketochef.fallback_name url ≠ "" →
       (Ketochef.fetch_recipe blocks events url).name ≠ "") ∧
    (∀ (blocks : List (Option Json)) (events : List HtmlEvent) (url : String) (r : Recipe),
       KetoDiet.extract_json_ld_recipe blocks = Except.ok (some r) → r.name ≠ "" →
       KetoDiet.extract_recipe_details blocks events url = Except.ok { r with url := url }) ∧
    (∀ (events : List HtmlEvent) (url : String),
       KetoDiet.extract_recipe_details [] events url =
         Except.ok ⟨url, pyOr (KetoDiet.rcpFeed events).title "",
           (KetoDiet.rcpFeed events).ingredients, (KetoDiet.rcpFeed events).instructions⟩) := by
  refine ⟨?_, ?_, ?_, ?_, ?_, ?_⟩
  · intro blocks events url t ht htne
    have hname : (Ketochef.parse_recipe_html blocks events).name = t := by
      simp [Ketochef.parse_recipe_html, ht, pyOr, htne]
    simp [Ketochef.fetch_recipe, hname, htne]
  · intro blocks events url r hfalsy hjld hrname
    have hname : (Ketochef.parse_recipe_html blocks events).name = r.name := by
      simp only [Ketochef.parse_recipe_html, hjld]
      exact pyOr_eq_of_falsy _ hfalsy
    simp [Ketochef.fetch_recipe, hname, hrname]
  · intro blocks events url hfalsy hjld
    have hname : (Ketochef.parse_recipe_html blocks events).name = "" := by
      simp only [Ketochef.parse_recipe_html, hjld]
      exact hfalsy
    simp [Ketochef.fetch_recipe, hname]
  · intro blocks events url hfb
    by_cases hname : (Ketochef.parse_recipe_html blocks events).name = "" <;>
      simp [Ketochef.fetch_recipe, hname, hfb]
  · intro blocks events url r hjld hrname
    simp [KetoDiet.extract_recipe_details, hjld, hrname]
  · intro events url
    rfl

/-- Witness for c3_theorem: each precedence case evaluated on concrete
pages. -/
theorem c3_witness :
    (Ketochef.fetch_recipe c3Blocks c3Events "https://ketochef.co.il/recipe/x").name
        = "Heuristic Title" ∧
    (Ketochef.fetch_recipe c3Blocks [] "https://ketochef.co.il/recipe/x").name
        = "Structured Name" ∧
    (Ketochef.fetch_recipe [] [] "https://ketochef.co.il/recipe/tofu-balls").name
        = Ketochef.fallback_name "https://ketochef.co.il/recipe/tofu-balls" ∧
    (Ketochef.fetch_recipe [] [] "https://ketochef.co.il/recipe/tofu-balls").name ≠ "" :=
  ⟨c3_theorem.1 c3Blocks c3Events "https://ketochef.co.il/recipe/x" "Heuristic Title"
      (by decide) (by decide),
   c3_theorem.2.1 c3Blocks [] "https://ketochef.co.il/recipe/x"
      ⟨"", "Structured Name", [], []⟩ (by decide) (by decide) (by decide),
   c3_theorem.2.2.1 [] [] "https://ketochef.co.il/recipe/tofu-balls" (by decide) (by decide),
   c3_theorem.2.2.2.1 [] [] "https://ketochef.co.il/recipe/tofu-balls" (by decide)⟩

end ClaimC3

section ClaimC4

open NomNom

theorem nodup_append_one {l : List String} {a : String} (h : l.Nodup) (ha : a ∉ l) :
    (l ++ [a]).Nodup := by
  simp [List.nodup_append, h, ha]

/-- Invariant of the omermiller crawl loop: if the fetch trace is
duplicate-free and contained in the visited set, it stays so. -/
theorem om_fetched_nodup
    (fetch : String → Except String String) (recOf pagesOf : String → List String) :
    ∀ (fuel : Nat) (toVisit visited recipes fetched : List String),
      fetched.Nodup → (∀ x ∈ fetched, x ∈ visited) →
      ((Omermiller.collect_all_recipe_links fetch recOf pagesOf
          fuel toVisit visited recipes fetched).2).Nodup := by
  intro fuel
  induction fuel with
  | zero => exact fun _ _ _ _ hnd _ => hnd
  | succ n ih =>
    intro toVisit visited recipes fetched hnd hsub
    cases toVisit with
    | nil => exact hnd
    | cons current rest =>
      simp only [Omermiller.collect_all_recipe_links]
      by_cases hv : current ∈ visited
      · rw [if_pos hv]
        exact ih rest visited recipes fetched hnd hsub
      · rw [if_neg hv]
        cases hf : fetch current with
        | error e =>
          exact nodup_append_one hnd (fun hc => hv (hsub _ hc))
        | ok html =>
          apply ih
          · exact nodup_append_one hnd (fun hc => hv (hsub _ hc))
          · intro x hx
            rcases List.mem_append.mp hx with hx | hx
            · exact List.mem_cons_of_mem _ (hsub _ hx)
            · simp at hx
              simp [hx]

/-- Invariant of the ketochef listing crawl loop: same statement. -/
theorem kc_fetched_nodup
    (fetch : String → Except String String) (pagesOf : String → List String) :
    ∀ (fuel : Nat) (toVisit seen fetched : List String),
      fetched.Nodup → (∀ x ∈ fetched, x ∈ seen) →
      ((Ketochef.collect_listing_pages fetch pagesOf fuel toVisit seen fetched).2).Nodup := by
  intro fuel
  induction fuel with
  | zero => exact fun _ _ _ hnd _ => hnd
  | succ n ih =>
    intro toVisit seen fetched hnd hsub
    cases toVisit with
    | nil => exact hnd
    | cons url rest =>
      simp only [Ketochef.collect_listing_pages]
      by_cases hv : url ∈ seen
      · rw [if_pos hv]
        exact ih rest seen fetched hnd hsub
      · rw [if_neg hv]
        have hnd2 : (fetched ++ [url]).Nodup :=
          nodup_append_one hnd (fun hc => hv (hsub _ hc))
        have hsub2 : ∀ x ∈ fetched ++ [url], x ∈ seen ++ [url] := by
          intro x hx
          rcases List.mem_append.mp hx with hx | hx
          · exact List.mem_append.mpr (Or.inl (hsub _ hx))
          · exact List.mem_append.mpr (Or.inr hx)
        cases hf : fetch url with
        | error e =>
          exact ih rest (seen ++ [url]) (fetched ++ [url]) hnd2 hsub2
        | ok html =>
          exact ih _ (seen ++ [url]) (fetched ++ [url]) hnd2 hsub2

/-- Claim C4: during one run of either crawl loop no URL is passed to
the fetch capability twice: the trace of fetched URLs is
duplicate-free, for every fetch behavior, every pair of link
extractors, any fuel and any starting frontier. -/
theorem c4_theorem (fetch : String → Except String String)
    (recOf pagesOf : String → List String) (fuel : Nat) (toVisit : List String) :
    ((Omermiller.collect_all_recipe_links fetch recOf pagesOf
        fuel toVisit [] [] []).2).Nodup ∧
    ((Ketochef.collect_listing_pages fetch pagesOf fuel toVisit [] []).2).Nodup :=
  ⟨om_fetched_nodup fetch recOf pagesOf fuel toVisit [] [] [] List.nodup_nil (by simp),
   kc_fetched_nodup fetch pagesOf fuel toVisit [] [] List.nodup_nil (by simp)⟩

end ClaimC4

section ClaimC5

open NomNom

/-- Claim C5, counterexample: a fetch failure inside omermiller's crawl
loop (which has no try/except) propagates to the caller instead of
being skipped. -/
theorem c5_counterexample :
    (Omermiller.collect_all_recipe_links (fun _ => Except.error "network failure")
        (fun _ => []) (fun _ => []) 1 ["https://omermiller.co.il/category/x"] [] [] []).1
      = Except.error "network failure" := by
  rfl

/-- Claim C5, amended: ketochef's collect_listing_pages catches fetch
failures, skips the page and continues, so it never propagates a fetch
error to its caller (for every fetch behavior and input); omermiller's
collect_all_recipe_links does propagate the error. -/
theorem c5_theorem (fetch : String → Except String String)
    (pagesOf : String → List String) :
    ∀ (fuel : Nat) (toVisit seen fetched : List String),
      exceptIsOk (Ketochef.collect_listing_pages fetch pagesOf fuel toVisit seen fetched).1
        = true := by
  intro fuel
  induction fuel with
  | zero => intro _ _ _; rfl
  | succ n ih =>
    intro toVisit seen fetched
    cases toVisit with
    | nil => rfl
    | cons url rest =>
      simp only [Ketochef.collect_listing_pages]
      by_cases hv : url ∈ seen
      · rw [if_pos hv]
        exact ih rest seen fetched
      · rw [if_neg hv]
        cases hf : fetch url with
        | error e => exact ih rest (seen ++ [url]) (fetched ++ [url])
        | ok html => exact ih _ (seen ++ [url]) (fetched ++ [url])

end ClaimC5

section ClaimC9

open NomNom

theorem all_of_sublist {p : Char → Bool} {l1 l2 : List Char} (hs : l1.Sublist l2)
    (h : l2.all p = true) : l1.all p = true := by
  rw [List.all_eq_true] at *
  exact fun x hx => h x (hs.subset hx)

theorem asciiStr_append {a b : String} (ha : asciiStr a = true) (hb : asciiStr b = true) :
    asciiStr (a ++ b) = true := by
  rw [asciiStr] at *
  rw [String.data_append, List.all_append]
  simp [ha, hb]

/-- The components urlparse extracts from an ASCII string are ASCII. -/
theorem urlparse_ascii {s : String} (h : asciiStr s = true) :
    asciiStr (urlparse s).scheme = true ∧ asciiStr (urlparse s).netloc = true ∧
    asciiStr (urlparse s).path = true := by
  rw [asciiStr] at h
  simp only [urlparse]
  split_ifs <;>
    refine ⟨?_, ?_, ?_⟩ <;>
    first
      | rfl
      | exact all_of_sublist ((List.takeWhile_sublist _).trans (List.drop_sublist _ _)) h
      | exact all_of_sublist ((List.takeWhile_sublist _).trans
          ((List.dropWhile_sublist _).trans (List.drop_sublist _ _))) h
      | exact all_of_sublist (List.takeWhile_sublist _) h

/-- Joining an ASCII link against an ASCII base yields an ASCII URL:
urljoin only concatenates scheme literals, base components and the
link, never decoding anything. -/
theorem urljoin_ascii {base link : String} (hb : asciiStr base = true)
    (hl : asciiStr link = true) : asciiStr (urljoin base link) = true := by
  obtain ⟨hs, hn, hp⟩ := urlparse_ascii hb
  have hdir : asciiStr ⟨dropTrailing (fun c => c != '/') (urlparse base).path.data⟩ = true :=
    all_of_sublist (dropTrailing_sublist _ _) hp
  simp only [urljoin]
  split_ifs
  · exact hl
  · exact asciiStr_append (asciiStr_append hs (by decide)) hl
  · exact asciiStr_append (asciiStr_append (asciiStr_append hs (by decide)) hn) hl
  · exact hb
  · exact asciiStr_append (asciiStr_append (asciiStr_append
      (asciiStr_append hs (by decide)) hn) hdir) hl

/-- The ketochef link normalizer preserves ASCII from any accumulator. -/
theorem kc_links_ascii_aux :
    ∀ (links acc : List String),
      (∀ l ∈ links, asciiStr l = true) → (∀ u ∈ acc, asciiStr u = true) →
      ∀ u ∈ links.foldl
        (fun normalized link =>
          let absolute := urljoin Ketochef.BASE_URL link
          if Ketochef.is_recipe_link absolute then setInsert normalized absolute
          else normalized) acc,
        asciiStr u = true := by
  intro links
  induction links with
  | nil => exact fun acc _ hacc u hu => hacc u hu
  | cons l ls ih =>
    intro acc hl hacc u hu
    rw [List.foldl_cons] at hu
    refine ih _ (fun x hx => hl x (List.mem_cons_of_mem _ hx)) ?_ u hu
    intro x hx
    have hx' : x ∈ (if Ketochef.is_recipe_link (urljoin Ketochef.BASE_URL l) = true
        then setInsert acc (urljoin Ketochef.BASE_URL l) else acc) := hx
    by_cases hr : Ketochef.is_recipe_link (urljoin Ketochef.BASE_URL l) = true
    · rw [if_pos hr, setInsert] at hx'
      by_cases hmem : urljoin Ketochef.BASE_URL l ∈ acc
      · rw [if_pos hmem] at hx'
        exact hacc x hx'
      · rw [if_neg hmem] at hx'
        rcases List.mem_append.mp hx' with hx2 | hx2
        · exact hacc x hx2
        · simp only [List.mem_singleton] at hx2
          subst hx2
          exact urljoin_ascii (by decide) (hl l (List.mem_cons_self _ _))
    · rw [if_neg hr] at hx'
      exact hacc x hx'

/-- Claim C9, counterexample: the omermiller collector stores the
percent-decoded absolute URL (its module docstring even announces
"not URL-encoded"), so a stored recipe URL contains a raw Hebrew
character instead of its percent-encoded form. -/
theorem c9_counterexample :
    Omermiller.extract_recipe_links ["/%D7%90-recipe"]
      = ["https://omermiller.co.il/א-recipe"] ∧
    asciiStr "https://omermiller.co.il/א-recipe" = false := by
  refine ⟨by decide, by decide⟩

/-- Claim C9, amended: the ketochef collector stores absolute URLs with
the href's percent-encoding preserved — ASCII (percent-encoded) hrefs
yield ASCII stored URLs — while the omermiller collector stores
percent-decoded URLs by design. -/
theorem c9_theorem (links : List String) (h : ∀ l ∈ links, asciiStr l = true) :
    ∀ u ∈ Ketochef.normalize_links links, asciiStr u = true := by
  intro u hu
  have hu' : u ∈ links.foldl
      (fun normalized link =>
        let absolute := urljoin Ketochef.BASE_URL link
        if Ketochef.is_recipe_link absolute then setInsert normalized absolute
        else normalized) [] := hu
  exact kc_links_ascii_aux links [] h (by simp) u hu'

/-- Witness for c9_theorem on a concrete percent-encoded href. -/
theorem c9_witness :
    asciiStr "https://ketochef.co.il/recipes/%D7%A7" = true :=
  c9_theorem ["/recipes/%D7%A7"] (by decide)
    "https://ketochef.co.il/recipes/%D7%A7" (by decide)

end ClaimC9

section ClaimC10

open NomNom

/-- keto-diet builds an empty name from a falsy name field. -/
theorem kdName_empty {fields : List (String × Json)} (h : nameTruthy fields = false) :
    KetoDiet.kdName fields = "" := by
  rw [KetoDiet.kdName]
  rw [nameTruthy] at h
  rw [if_neg (by simp [h])]
  rfl

/-- ketochef's extractor returns nothing when every recipe object it
can find has a falsy name. -/
theorem kc_extract_none {blocks : List (Option Json)}
    (h : ∀ (data : Json) (fields : List (String × Json)), some data ∈ blocks →
      Ketochef.find_recipe_object data = some fields → nameTruthy fields = false) :
    Ketochef.extract_json_ld_recipe blocks = none := by
  rw [Ketochef.extract_json_ld_recipe, List.findSome?_eq_none_iff]
  intro block hblock
  cases block with
  | none => rfl
  | some data =>
    simp only []
    cases hfind : Ketochef.find_recipe_object data with
    | none => rfl
    | some fields =>
      have hname := h data fields hblock hfind
      rw [nameTruthy] at hname
      by_cases hempty : fields.isEmpty = true
      · simp [hempty]
      · simp only [hempty, Bool.false_eq_true, if_false]
        rw [if_neg (by simp [hname])]

/-- A recipe produced by the keto-diet candidate scan takes its name
from some recipe-typed dict entry of the list. -/
theorem kd_scan_name : ∀ {items : List Json} {r : Recipe},
    KetoDiet.kdScanEntries items = some (Except.ok r) →
    ∃ fields, Json.obj fields ∈ items ∧ KetoDiet.isRecipeEntry fields = true ∧
      r.name = KetoDiet.kdName fields := by
  intro items
  induction items with
  | nil => intro r h; cases h
  | cons e rest ih =>
    intro r h
    cases e with
    | obj fields =>
      rw [KetoDiet.kdScanEntries] at h
      by_cases hrec : KetoDiet.isRecipeEntry fields = true
      · rw [if_pos hrec] at h
        cases hing : KetoDiet.kdIngredients fields with
        | error e0 =>
          rw [hing] at h
          cases h
        | ok ings =>
          rw [hing] at h
          injection h with h2
          injection h2 with h3
          exact ⟨fields, List.mem_cons_self _ _, hrec, by rw [← h3]⟩
      · rw [if_neg hrec] at h
        obtain ⟨fields2, hmem, hrec2, hname⟩ := ih h
        exact ⟨fields2, List.mem_cons_of_mem _ hmem, hrec2, hname⟩
    | null => exact (ih h).imp (fun f ⟨hm, hx⟩ => ⟨List.mem_cons_of_mem _ hm, hx⟩)
    | bool b => exact (ih h).imp (fun f ⟨hm, hx⟩ => ⟨List.mem_cons_of_mem _ hm, hx⟩)
    | num n => exact (ih h).imp (fun f ⟨hm, hx⟩ => ⟨List.mem_cons_of_mem _ hm, hx⟩)
    | str s => exact (ih h).imp (fun f ⟨hm, hx⟩ => ⟨List.mem_cons_of_mem _ hm, hx⟩)
    | arr items2 => exact (ih h).imp (fun f ⟨hm, hx⟩ => ⟨List.mem_cons_of_mem _ hm, hx⟩)

/-- A recipe produced by the keto-diet extractor takes its name from a
recipe-typed dict entry of some parsed block's candidate list. -/
theorem kd_extract_name : ∀ {blocks : List (Option Json)} {r : Recipe},
    KetoDiet.extract_json_ld_recipe blocks = Except.ok (some r) →
    ∃ (data : Json) (fields : List (String × Json)), some data ∈ blocks ∧
      Json.obj fields ∈ KetoDiet.kdCandidates data ∧
      KetoDiet.isRecipeEntry fields = true ∧ r.name = KetoDiet.kdName fields := by
  intro blocks
  induction blocks with
  | nil => intro r h; injection h with h2; cases h2
  | cons b rest ih =>
    intro r h
    cases b with
    | none =>
      rw [KetoDiet.extract_json_ld_recipe] at h
      obtain ⟨data, fields, hmem, hx⟩ := ih h
      exact ⟨data, fields, List.mem_cons_of_mem _ hmem, hx⟩
    | some data =>
      rw [KetoDiet.extract_json_ld_recipe] at h
      cases hscan : KetoDiet.kdScanEntries (KetoDiet.kdCandidates data) with
      | none =>
        rw [hscan] at h
        obtain ⟨data2, fields, hmem, hx⟩ := ih h
        exact ⟨data2, fields, List.mem_cons_of_mem _ hmem, hx⟩
      | some res =>
        cases res with
        | error e0 => rw [hscan] at h; cases h
        | ok r0 =>
          rw [hscan] at h
          injection h with h2
          injection h2 with h3
          subst h3
          obtain ⟨fields, hmem, hrec, hname⟩ := kd_scan_name hscan
          exact ⟨data, fields, List.mem_cons_self _ _, hmem, hrec, hname⟩

/-- Claim C10: structured data is used only when it carries a truthy
name.  In ketochef, if every recipe object findable in the parsed
blocks has a falsy name, extraction returns none and parsing behaves
exactly as if no structured blocks were present.  In keto-diet, if
every recipe-typed candidate entry has a falsy name (and the extractor
does not raise), the details are exactly those computed with no
structured blocks, i.e. the heuristic result alone. -/
theorem c10_theorem :
    (∀ (blocks : List (Option Json)) (events : List HtmlEvent),
       (∀ (data : Json) (fields : List (String × Json)), some data ∈ blocks →
          Ketochef.find_recipe_object data = some fields → nameTruthy fields = false) →
       Ketochef.extract_json_ld_recipe blocks = none ∧
       Ketochef.parse_recipe_html blocks events = Ketochef.parse_recipe_html [] events) ∧
    (∀ (blocks : List (Option Json)) (events : List HtmlEvent) (url : String),
       (∀ (data : Json) (fields : List (String × Json)), some data ∈ blocks →
          Json.obj fields ∈ KetoDiet.kdCandidates data →
          KetoDiet.isRecipeEntry fields = true → nameTruthy fields = false) →
       exceptIsOk (KetoDiet.extract_json_ld_recipe blocks) = true →
       KetoDiet.extract_recipe_details blocks events url =
         KetoDiet.extract_recipe_details [] events url) := by
  constructor
  · intro blocks events h
    have hnone := kc_extract_none h
    refine ⟨hnone, ?_⟩
    simp only [Ketochef.parse_recipe_html, hnone]
    rfl
  · intro blocks events url h hok
    cases hext : KetoDiet.extract_json_ld_recipe blocks with
    | error e => rw [hext] at hok; cases hok
    | ok jld =>
      cases jld with
      | none => simp only [KetoDiet.extract_recipe_details, hext]; rfl
      | some r =>
        obtain ⟨data, fields, hmem, hcand, hrec, hname⟩ := kd_extract_name hext
        have hempty : r.name = "" := by
          rw [hname]
          exact kdName_empty (h data fields hmem hcand hrec)
        simp only [KetoDiet.extract_recipe_details, hext, hempty]
        rfl

/-- Witness for c10_theorem: a page whose only recipe block lacks a
name is extracted exactly like a page with no structured data. -/
theorem c10_witness :
    (Ketochef.extract_json_ld_recipe
        [some (.obj [("@type", .str "Recipe"), ("recipeIngredient", .arr [.str "2 eggs"])])]
      = none ∧
     Ketochef.parse_recipe_html
        [some (.obj [("@type", .str "Recipe"), ("recipeIngredient", .arr [.str "2 eggs"])])]
        [] = Ketochef.parse_recipe_html [] []) ∧
    KetoDiet.extract_recipe_details
        [some (.obj [("@type", .str "Recipe"), ("recipeIngredient", .arr [.str "2 eggs"])])]
        [] "https://keto-diet.co.il/recipes/x" =
      KetoDiet.extract_recipe_details [] [] "https://keto-diet.co.il/recipes/x" := by
  constructor
  · refine c10_theorem.1
      [some (.obj [("@type", .str "Recipe"), ("recipeIngredient", .arr [.str "2 eggs"])])]
      [] ?_
    intro data fields hmem hfind
    simp only [List.mem_singleton] at hmem
    injection hmem with hdata
    subst hdata
    have hF : Ketochef.find_recipe_object
        (.obj [("@type", .str "Recipe"), ("recipeIngredient", .arr [.str "2 eggs"])])
      = some [("@type", Json.str "Recipe"), ("recipeIngredient", Json.arr [Json.str "2 eggs"])] := rfl
    rw [hF] at hfind
    injection hfind with hfields
    subst hfields
    rfl
  · refine c10_theorem.2
      [some (.obj [("@type", .str "Recipe"), ("recipeIngredient", .arr [.str "2 eggs"])])]
      [] "https://keto-diet.co.il/recipes/x" ?_ (by decide)
    intro data fields hmem hcand hrec
    simp only [List.mem_singleton] at hmem
    injection hmem with hdata
    subst hdata
    simp only [KetoDiet.kdCandidates, List.mem_singleton] at hcand
    injection hcand with hfields
    subst hfields
    rfl

end ClaimC10
